import Mathlib

/-!
Shallow embedding of the promtail JSON-v1 Loki exchanger
(src/exchanger.go, src/shared.go).

Go slices of pointers (`[]*LogStream`, `[]*LogEntry`) are embedded as
`List (Option _)` (a nil pointer is `none`); a nil slice as distinct from an
empty slice is embedded as `Option (List _)` where `none` is the nil slice.
Go strings are embedded as Lean `String`; a `[]byte` log-line payload is kept
as the verbatim byte content it converts to via Go's `string(...)`, i.e. a
`String` carried unchanged. Machine timestamps (`Timestamp.UnixNano()`,
an int64) are embedded as `Int`; HTTP status codes (Go `int`) as `Int`.
The HTTP transport and the JSON/gzip encoders are external effects: each
`Push`/`Ping` run is parameterised by the outcomes the environment produced
for them (an `Except` per fallible step), and the functions below reproduce
exactly how exchanger.go combines those outcomes.
-/

namespace Promtail

/-- Go `map[string]string` as carried around by the code: a finite list of
key/value pairs; the Go-map invariant is that keys are distinct. -/
abbrev LabelMap := List (String × String)

/-- Lookup in a `LabelMap`, the observable behaviour of Go `m[key]`. -/
def mapGet (m : LabelMap) (k : String) : Option String :=
  (m.find? (fun p => p.1 = k)).map (·.2)

/-- src/exchanger.go `LogEntry`. -/
structure LogEntry where
  labels : LabelMap
  level : Nat
  timestampNanos : Int
  logLine : String
deriving DecidableEq

/-- src/exchanger.go `LogStream`; `entries` is `[]*LogEntry`, so each element
may be a nil pointer. -/
structure LogStream where
  level : Nat
  labels : LabelMap
  entries : List (Option LogEntry)
deriving DecidableEq

/-- src/exchanger.go `lokiDTOJsonV1Stream`. -/
structure lokiDTOJsonV1Stream where
  stream : LabelMap
  values : List (String × String)
deriving DecidableEq

/-- src/exchanger.go `lokiDTOJsonV1PushRequest`. -/
structure lokiDTOJsonV1PushRequest where
  streams : List lokiDTOJsonV1Stream
deriving DecidableEq

/-- src/shared.go `PongResponse`. -/
structure PongResponse where
  IsReady : Bool
deriving DecidableEq

/-- src/exchanger.go `lokiJsonV1Exchanger` (the `restClient` transport is an
external effect, modelled through the environments below). -/
structure lokiJsonV1Exchanger where
  useGzipCompression : Bool
  lokiAddress : String
  username : String
  password : String
deriving DecidableEq

/-! ### Decimal formatting: `strconv.FormatInt(_, 10)` -/

/-- The base-10 digit table of `strconv` (`"0123456789..."[d]`). -/
def digitChar : Nat → Char
  | 0 => '0' | 1 => '1' | 2 => '2' | 3 => '3' | 4 => '4'
  | 5 => '5' | 6 => '6' | 7 => '7' | 8 => '8' | 9 => '9'
  | _ => '?'

/-- strconv's small-base loop: peel base-10 digits from the right. -/
def natDecAux (n : Nat) (acc : List Char) : List Char :=
  if h : n = 0 then acc
  else natDecAux (n / 10) (digitChar (n % 10) :: acc)
termination_by n
decreasing_by exact Nat.div_lt_self (Nat.pos_of_ne_zero h) (by decide)

/-- Decimal digits of a natural number, `"0"` for zero. -/
def natDec (n : Nat) : List Char :=
  if n = 0 then ['0'] else natDecAux n []

/-- `strconv.FormatInt(i, 10)`: minus sign for negatives, then the digits. -/
def formatInt10 (i : Int) : String :=
  if i < 0 then ⟨'-' :: natDec i.natAbs⟩ else ⟨natDec i.toNat⟩

/-! ### The stream transformer (exchanger.go lines 169-203) -/

/-- One iteration of the inner loop of `transformLogStreamsToDTO`
(lines 188-197): a nil entry is skipped, otherwise the
`[timestamp, logline]` pair is appended to the accumulated `Values`. -/
def valueStep (vs : List (String × String)) (oe : Option LogEntry) :
    List (String × String) :=
  match oe with
  | none => vs
  | some e => vs ++ [(formatInt10 e.timestampNanos, e.logLine)]

/-- The `Values` slice built by the inner loop for one stream. -/
def transformStreamValues (entries : List (Option LogEntry)) :
    List (String × String) :=
  entries.foldl valueStep []

/-- One iteration of the outer loop (lines 178-200): a nil stream or a stream
with an empty `Entries` slice is skipped (`continue`), otherwise one
`lokiDTOJsonV1Stream` is appended. -/
def streamStep (acc : List lokiDTOJsonV1Stream) (os : Option LogStream) :
    List lokiDTOJsonV1Stream :=
  match os with
  | none => acc
  | some s =>
    if s.entries.length = 0 then acc
    else acc ++ [⟨s.labels, transformStreamValues s.entries⟩]

/-- The `Streams` slice built by the outer loop. -/
def pushStreams (ss : List (Option LogStream)) : List lokiDTOJsonV1Stream :=
  ss.foldl streamStep []

/-- src/exchanger.go `transformLogStreamsToDTO`: nil in, nil out; otherwise
the request DTO built by the loops above. -/
def transformLogStreamsToDTO (streams : Option (List (Option LogStream))) :
    Option lokiDTOJsonV1PushRequest :=
  match streams with
  | none => none
  | some ss => some ⟨pushStreams ss⟩

/-! ### The HTTP exchanger (exchanger.go lines 93-167, 205-212) -/

/-- An HTTP response as delivered by the transport: `resp.StatusCode` and the
content of `resp.Body` (read fully). -/
structure httpResponse where
  statusCode : Int
  body : String
deriving DecidableEq

/-- The error outcomes `Push` can produce, following the three `fmt.Errorf`
sites that are actually returned from `Push` (lines 115, 129, 136). -/
inductive PushError where
  | requestConstruction (msg : String)
  | transport (msg : String)
  | unexpectedStatus (code : Int) (body : String)
deriving DecidableEq

/-- Environment of one `Push` run: the outcome of each external effect, in the
order the code performs them — the JSON encode into the (possibly
gzip-wrapped) buffer, `http.NewRequest`, and `restClient.Do`. -/
structure PushEnv where
  encodeResult : Except String Unit
  buildResult : Except String Unit
  transportResult : Except String httpResponse

/-- Environment of one `Ping` run: `http.NewRequestWithContext` and
`restClient.Do` outcomes. -/
structure PingEnv where
  buildResult : Except String Unit
  transportResult : Except String httpResponse

/-- The request `Push` assembles (lines 109-125): method, URL, headers, and
the basic-auth credentials attached when both are non-empty. -/
structure httpRequest where
  method : String
  url : String
  headers : List (String × String)
  basicAuth : Option (String × String)
deriving DecidableEq

/-- src/exchanger.go `isSuccessHTTPCode`: `199 < code && code < 300`. -/
def isSuccessHTTPCode (code : Int) : Bool :=
  199 < code && code < 300

/-- src/exchanger.go `SetBasicAuth` (lines 205-208): stores both fields,
overwriting whatever was there, with no validation. -/
def SetBasicAuth (rcv : lokiJsonV1Exchanger) (username password : String) :
    lokiJsonV1Exchanger :=
  { rcv with username := username, password := password }

/-- The request-building part of `Push` (lines 109-125): POST to
`<address>/loki/api/v1/push`, `Content-Type` always, `Content-Encoding: gzip`
when compression is on, and `req.SetBasicAuth` only when both stored
credentials are non-empty. -/
def buildPushRequest (rcv : lokiJsonV1Exchanger) : httpRequest :=
  { method := "POST"
    url := rcv.lokiAddress ++ "/loki/api/v1/push"
    headers := [("Content-Type", "application/json")] ++
      (if rcv.useGzipCompression then [("Content-Encoding", "gzip")] else [])
    basicAuth :=
      if rcv.username ≠ "" ∧ rcv.password ≠ "" then
        some (rcv.username, rcv.password)
      else none }

/-- The serialization closure of `Push` (lines 96-107): the error it returns
when `json.NewEncoder(w).Encode(...)` fails. At the call site in the source
this value is discarded (`func() error {...}()` with the result unused). -/
def pushSerializeBody (env : PushEnv) : Option String :=
  match env.encodeResult with
  | .error e => some ("failed to encode streams message: " ++ e)
  | .ok _ => none

/-- src/exchanger.go `Push` (lines 93-140). The serialization closure's error
value is bound but never consulted, exactly as at the source call site; the
run then proceeds through request construction, transport, and status-code
interpretation. Returns `none` for the Go `nil` error. -/
def Push (rcv : lokiJsonV1Exchanger) (env : PushEnv) : Option PushError :=
  let _serializationError := pushSerializeBody env
  match env.buildResult with
  | .error e => some (.requestConstruction ("failed to create request: " ++ e))
  | .ok _ =>
    let _req := buildPushRequest rcv
    match env.transportResult with
    | .error e => some (.transport ("failed to send push message: " ++ e))
    | .ok resp =>
      if isSuccessHTTPCode resp.statusCode then none
      else some (.unexpectedStatus resp.statusCode resp.body)

/-- src/exchanger.go `Ping` (lines 142-167): build the GET request, run it,
and on any received response map the status code to `IsReady` — a non-2xx
response is a `(PongResponse{IsReady:false}, nil)` result, not an error. -/
def Ping (rcv : lokiJsonV1Exchanger) (env : PingEnv) :
    Option PongResponse × Option String :=
  match env.buildResult with
  | .error e => (none, some ("unable to build ping request: " ++ e))
  | .ok _ =>
    match env.transportResult with
    | .error e => (none, some ("pong is not received: " ++ e))
    | .ok resp =>
      let pong : PongResponse := { IsReady := isSuccessHTTPCode resp.statusCode }
      (some pong, none)

/-! ### Label merging (src/shared.go lines 11-30)

The Go function builds a fresh map `dst` and executes `dst[key] = srcs[i][key]`
over the sources in argument order. The destination map is embedded by its
observable behaviour, the lookup function built write by write (each write
shadows the previous binding of its key); the sources keep their `LabelMap`
list form, which fixes one iteration order for `for key := range srcs[i]` —
legitimate because with the Go-map invariant (distinct keys per map) the
result is independent of that order. -/

/-- One Go map write `d[k] = v`, acting on the lookup function. -/
def mapWrite (d : String → Option String) (k v : String) :
    String → Option String :=
  fun q => if q = k then some v else d q

/-- src/shared.go `copyAndMergeLabels`: fresh empty `dst`, then every pair of
every source written left to right. The pre-sizing pass of the source only
chooses the initial capacity and has no observable effect. -/
def copyAndMergeLabels (srcs : List LabelMap) : String → Option String :=
  srcs.foldl (fun dst src => src.foldl (fun d p => mapWrite d p.1 p.2) dst)
    (fun _ => none)

/-- Spec-side reading of last-write-wins: the value of `k` comes from the last
source that contains `k` at all. -/
def lastSourceWins (srcs : List LabelMap) (k : String) : Option String :=
  srcs.reverse.findSome? (fun src => mapGet src k)

/-! ### Spec-side formulation of the transformer used for the order claims -/

/-- Spec-side: the single value pair a retained entry contributes. -/
def retainedValue (oe : Option LogEntry) : Option (String × String) :=
  oe.map (fun e => (formatInt10 e.timestampNanos, e.logLine))

/-- Spec-side: the single DTO a retained stream contributes, `none` for a
skipped one; retention and contents spelled with `filterMap`, which makes the
order claims (input order restricted to the retained elements) literal. -/
def retainedStreamDTO (os : Option LogStream) : Option lokiDTOJsonV1Stream :=
  match os with
  | none => none
  | some s =>
    if s.entries.length = 0 then none
    else some ⟨s.labels, s.entries.filterMap retainedValue⟩

/-! ### Helper lemmas -/

theorem natDecAux_zero (acc : List Char) : natDecAux 0 acc = acc := by
  rw [natDecAux, dif_pos rfl]

theorem natDecAux_pos (n : Nat) (acc : List Char) (h : n ≠ 0) :
    natDecAux n acc = natDecAux (n / 10) (digitChar (n % 10) :: acc) := by
  rw [natDecAux, dif_neg h]

theorem natDecAux_append (n : Nat) :
    ∀ acc : List Char, natDecAux n acc = natDecAux n [] ++ acc := by
  induction n using Nat.strong_induction_on with
  | _ n ih =>
    intro acc
    by_cases h : n = 0
    · subst h
      rw [natDecAux_zero, natDecAux_zero, List.nil_append]
    · rw [natDecAux_pos n acc h, natDecAux_pos n [] h]
      have hlt : n / 10 < n := Nat.div_lt_self (Nat.pos_of_ne_zero h) (by decide)
      rw [ih _ hlt (digitChar (n % 10) :: acc), ih _ hlt [digitChar (n % 10)]]
      simp

theorem digitChar_bounds :
    ∀ d : Nat, d < 10 →
      ('0' ≤ digitChar d ∧ digitChar d ≤ '9') ∧ (1 ≤ d → '1' ≤ digitChar d) := by
  decide

theorem natDecAux_head (n : Nat) (h : n ≠ 0) :
    ∃ c cs, natDecAux n [] = c :: cs ∧ '1' ≤ c ∧ c ≤ '9' := by
  induction n using Nat.strong_induction_on with
  | _ n ih =>
    rw [natDecAux_pos n [] h]
    by_cases h10 : n / 10 = 0
    · rw [h10, natDecAux_zero]
      have hn : n < 10 := by
        rcases Nat.lt_or_ge n 10 with hlt | hge
        · exact hlt
        · exact absurd h10 (Nat.ne_of_gt (Nat.div_pos hge (by decide)))
      have hmod : n % 10 = n := Nat.mod_eq_of_lt hn
      refine ⟨digitChar (n % 10), [], rfl, ?_, ?_⟩
      · exact (digitChar_bounds (n % 10) (Nat.mod_lt n (by decide))).2
          (by rw [hmod]; exact Nat.one_le_iff_ne_zero.mpr h)
      · exact ((digitChar_bounds (n % 10) (Nat.mod_lt n (by decide))).1).2
    · have hlt : n / 10 < n := Nat.div_lt_self (Nat.pos_of_ne_zero h) (by decide)
      obtain ⟨c, cs, hc, h1, h9⟩ := ih (n / 10) hlt h10
      rw [natDecAux_append, hc]
      exact ⟨c, cs ++ [digitChar (n % 10)], rfl, h1, h9⟩

/-- The head of the decimal rendering of a natural: always a digit, and `'0'`
only for zero itself (which renders as exactly `"0"`). -/
theorem natDec_head (n : Nat) :
    ∃ c cs, natDec n = c :: cs ∧ '0' ≤ c ∧ c ≤ '9' ∧
      (c = '0' → n = 0 ∧ cs = []) := by
  by_cases h : n = 0
  · subst h
    exact ⟨'0', [], rfl, by decide, by decide, fun _ => ⟨rfl, rfl⟩⟩
  · obtain ⟨c, cs, hc, h1, h9⟩ := natDecAux_head n h
    refine ⟨c, cs, ?_, le_trans (by decide) h1, h9, ?_⟩
    · rw [natDec, if_neg h, hc]
    · intro hc0
      rw [hc0] at h1
      exact absurd h1 (by decide)

/-- Evaluation of `natDec` on a single digit (`natDecAux` recurses by
well-founded recursion, so concrete runs are evaluated through its
equations). -/
theorem natDec_digit (d : Nat) (h1 : d ≠ 0) (h10 : d < 10) :
    natDec d = [digitChar d] := by
  rw [natDec, if_neg h1, natDecAux_pos d [] h1, Nat.div_eq_of_lt h10,
    Nat.mod_eq_of_lt h10, natDecAux_zero]

theorem formatInt10_zero : formatInt10 0 = "0" := rfl

theorem formatInt10_one : formatInt10 1 = "1" := by
  rw [formatInt10, if_neg (by decide)]
  rw [show Int.toNat 1 = 1 from rfl, natDec_digit 1 (by decide) (by decide)]
  rfl

theorem formatInt10_seven : formatInt10 7 = "7" := by
  rw [formatInt10, if_neg (by decide)]
  rw [show Int.toNat 7 = 7 from rfl, natDec_digit 7 (by decide) (by decide)]
  rfl

theorem valueStep_shift (acc : List (String × String)) (oe : Option LogEntry) :
    valueStep acc oe = acc ++ valueStep [] oe := by
  cases oe <;> simp [valueStep]

theorem foldl_valueStep_acc (xs : List (Option LogEntry)) :
    ∀ acc, xs.foldl valueStep acc = acc ++ xs.foldl valueStep [] := by
  induction xs with
  | nil => intro acc; simp
  | cons oe xs ih =>
    intro acc
    rw [List.foldl_cons, List.foldl_cons, ih (valueStep acc oe),
      ih (valueStep [] oe), valueStep_shift acc oe, List.append_assoc]

theorem transformStreamValues_eq_filterMap (entries : List (Option LogEntry)) :
    transformStreamValues entries = entries.filterMap retainedValue := by
  induction entries with
  | nil => rfl
  | cons oe xs ih =>
    rw [transformStreamValues, List.foldl_cons, foldl_valueStep_acc]
    cases oe with
    | none => simpa [valueStep, retainedValue] using ih
    | some e =>
      rw [List.filterMap_cons]
      simpa [valueStep, retainedValue] using ih

theorem streamStep_shift (acc : List lokiDTOJsonV1Stream)
    (os : Option LogStream) : streamStep acc os = acc ++ streamStep [] os := by
  cases os with
  | none => simp [streamStep]
  | some s =>
    by_cases h : s.entries.length = 0 <;> simp [streamStep, h]

theorem foldl_streamStep_acc (xs : List (Option LogStream)) :
    ∀ acc, xs.foldl streamStep acc = acc ++ xs.foldl streamStep [] := by
  induction xs with
  | nil => intro acc; simp
  | cons os xs ih =>
    intro acc
    rw [List.foldl_cons, List.foldl_cons, ih (streamStep acc os),
      ih (streamStep [] os), streamStep_shift acc os, List.append_assoc]

theorem pushStreams_eq_filterMap (ss : List (Option LogStream)) :
    pushStreams ss = ss.filterMap retainedStreamDTO := by
  induction ss with
  | nil => rfl
  | cons os xs ih =>
    rw [pushStreams, List.foldl_cons, foldl_streamStep_acc]
    cases os with
    | none => simpa [streamStep, retainedStreamDTO] using ih
    | some s =>
      rw [List.filterMap_cons]
      by_cases h : s.entries.length = 0
      · simpa [streamStep, retainedStreamDTO, h] using ih
      · simpa [streamStep, retainedStreamDTO, h,
          transformStreamValues_eq_filterMap] using ih

theorem mapGet_cons (p : String × String) (rest : LabelMap) (k : String) :
    mapGet (p :: rest) k = if p.1 = k then some p.2 else mapGet rest k := by
  by_cases h : p.1 = k <;> simp [mapGet, List.find?_cons, h]

theorem mapGet_eq_none_of_not_mem (src : LabelMap) (k : String)
    (h : k ∉ src.map Prod.fst) : mapGet src k = none := by
  rw [mapGet, Option.map_eq_none', List.find?_eq_none]
  intro p hp hpk
  exact h (List.mem_map.mpr ⟨p, hp, of_decide_eq_true hpk⟩)

theorem foldl_mapWrite_get (src : LabelMap) :
    ∀ (dst : String → Option String) (k : String),
      (src.map Prod.fst).Nodup →
      src.foldl (fun d p => mapWrite d p.1 p.2) dst k =
        (match mapGet src k with
         | some v => some v
         | none => dst k) := by
  induction src with
  | nil => intro dst k _; rfl
  | cons p rest ih =>
    intro dst k hnd
    rw [List.map_cons, List.nodup_cons] at hnd
    obtain ⟨hp, hrest⟩ := hnd
    rw [List.foldl_cons, ih _ k hrest, mapGet_cons]
    by_cases hk : p.1 = k
    · have hnone : mapGet rest k = none :=
        mapGet_eq_none_of_not_mem rest k (by rw [← hk]; exact hp)
      rw [hnone, if_pos hk]
      show mapWrite dst p.1 p.2 k = some p.2
      rw [mapWrite, if_pos hk.symm]
    · rw [if_neg hk]
      cases hv : mapGet rest k with
      | some v => rfl
      | none =>
        show mapWrite dst p.1 p.2 k = dst k
        rw [mapWrite, if_neg (fun hkk => hk hkk.symm)]

/-! ### Claim theorems -/

/-- Claim C3: the transformer preserves the absent/empty distinction — a nil
stream slice maps to a nil request, a present-but-empty slice maps to a
present request with an empty stream list. -/
theorem claim_C3_absent_vs_empty :
    transformLogStreamsToDTO none = none ∧
    transformLogStreamsToDTO (some []) = some ⟨[]⟩ :=
  ⟨rfl, rfl⟩

/-- Claim C1, counterexample: a present stream whose entries are all absent
(one nil entry here) is NOT omitted — `transformLogStreamsToDTO` only skips a
stream whose `Entries` slice has length zero, so this stream is represented
as a StreamDTO with an empty `Values` list, contrary to the claim that it
contributes nothing to the output. -/
theorem claim_C1_counterexample :
    transformLogStreamsToDTO (some [some ⟨0, [], [none]⟩]) =
      some ⟨[⟨[], []⟩]⟩ ∧
    transformLogStreamsToDTO (some [some ⟨0, [], [none]⟩]) ≠ some ⟨[]⟩ := by
  constructor
  · rfl
  · decide

/-- Claim C1 as amended: a stream is skipped (contributing nothing to the
output) exactly when it is absent or its `Entries` slice is empty; a present
stream with a non-empty all-absent `Entries` slice is retained and yields a
StreamDTO whose `Values` list is empty. -/
theorem claim_C1_skip_rule :
    (∀ (pre post : List (Option LogStream)) (os : Option LogStream),
      (os = none ∨ ∃ s, os = some s ∧ s.entries = []) →
      transformLogStreamsToDTO (some (pre ++ os :: post)) =
        transformLogStreamsToDTO (some (pre ++ post))) ∧
    (∀ s : LogStream, s.entries ≠ [] → (∀ oe ∈ s.entries, oe = none) →
      pushStreams [some s] = [⟨s.labels, []⟩]) := by
  constructor
  · intro pre post os hskip
    have hnone : retainedStreamDTO os = none := by
      rcases hskip with h | ⟨s, hs, he⟩
      · rw [h]; rfl
      · rw [hs, retainedStreamDTO, he]
        rfl
    rw [transformLogStreamsToDTO, transformLogStreamsToDTO,
      pushStreams_eq_filterMap, pushStreams_eq_filterMap,
      List.filterMap_append, List.filterMap_append, List.filterMap_cons, hnone]
  · intro s hne hall
    have hlen : s.entries.length ≠ 0 := fun h => hne (List.length_eq_zero.mp h)
    have hvals : s.entries.filterMap retainedValue = [] := by
      rw [List.filterMap_eq_nil_iff]
      intro oe hoe
      rw [hall oe hoe]
      rfl
    rw [pushStreams_eq_filterMap, List.filterMap_cons, retainedStreamDTO,
      if_neg hlen, hvals]
    rfl

/-- Witness for the amended C1: inserting a nil stream changes nothing, and a
stream with one nil entry yields a StreamDTO with empty values. -/
theorem claim_C1_skip_rule_witness :
    transformLogStreamsToDTO (some ([] ++ none :: [])) =
      transformLogStreamsToDTO (some ([] ++ [])) ∧
    pushStreams [some ⟨0, [], [none]⟩] = [⟨[], []⟩] :=
  ⟨claim_C1_skip_rule.1 [] [] none (Or.inl rfl),
   claim_C1_skip_rule.2 ⟨0, [], [none]⟩ (by decide) (by decide)⟩

/-- Claim C5: output stream order is input order restricted to the retained
streams, and value order within a stream is input entry order restricted to
the retained entries — both sides are literally `filterMap`s of the input, so
no reordering, deduplication, or sorting by timestamp occurs. -/
theorem claim_C5_order_preserved :
    ∀ ss : List (Option LogStream),
      transformLogStreamsToDTO (some ss) =
        some ⟨ss.filterMap retainedStreamDTO⟩ ∧
      ∀ entries : List (Option LogEntry),
        transformStreamValues entries = entries.filterMap retainedValue := by
  intro ss
  constructor
  · rw [transformLogStreamsToDTO, pushStreams_eq_filterMap]
  · intro entries
    exact transformStreamValues_eq_filterMap entries

/-- Claim C4: every retained entry contributes exactly one value pair — the
timestamp as a base-10 nanosecond string and the log-line payload verbatim;
the epoch renders as `"0"`, one nanosecond later as `"1"`, and for every
non-negative instant the string starts with a digit (no sign) that is `'0'`
only for the one-character string `"0"` (no leading zeros). -/
theorem claim_C4_entry_pair :
    ∀ (pre post : List (Option LogEntry)) (e : LogEntry) (n : Int), 0 ≤ n →
      (transformStreamValues (pre ++ some e :: post) =
        transformStreamValues pre ++
          (formatInt10 e.timestampNanos, e.logLine) ::
            transformStreamValues post) ∧
      formatInt10 0 = "0" ∧ formatInt10 1 = "1" ∧
      ∃ c cs, (formatInt10 n).data = c :: cs ∧ '0' ≤ c ∧ c ≤ '9' ∧
        (c = '0' → n = 0 ∧ cs = []) := by
  intro pre post e n hn
  refine ⟨?_, formatInt10_zero, formatInt10_one, ?_⟩
  · rw [transformStreamValues_eq_filterMap, transformStreamValues_eq_filterMap,
      transformStreamValues_eq_filterMap, List.filterMap_append,
      List.filterMap_cons]
    rfl
  · rw [formatInt10, if_neg (not_lt.mpr hn)]
    obtain ⟨c, cs, hc, h0, h9, hz⟩ := natDec_head n.toNat
    refine ⟨c, cs, hc, h0, h9, fun hc0 => ?_⟩
    obtain ⟨htn, hcs⟩ := hz hc0
    exact ⟨le_antisymm (Int.toNat_eq_zero.mp htn) hn, hcs⟩

/-- Witness for C4: a single retained entry at 7ns with payload `"abc"`
produces exactly the pair `("7", "abc")`. -/
theorem claim_C4_entry_pair_witness :
    transformStreamValues [some ⟨[], 0, 7, "abc"⟩] = [("7", "abc")] := by
  have h := (claim_C4_entry_pair [] [] ⟨[], 0, 7, "abc"⟩ 7 (by decide)).1
  simp only [List.nil_append] at h
  rw [h]
  simp [transformStreamValues, formatInt10_seven]

/-- Claim C2 (code bug): the serialization closure of `Push` produces an
error when JSON encoding fails, but its result is discarded at the call site
— with a failing encoder and a 204 transport response, `Push` still returns
`nil` instead of the SerializationError the spec promises. -/
theorem claim_C2_serialization_error_swallowed :
    pushSerializeBody ⟨.error "boom", .ok (), .ok ⟨204, ""⟩⟩ =
      some "failed to encode streams message: boom" ∧
    Push ⟨false, "http://loki", "", ""⟩ ⟨.error "boom", .ok (), .ok ⟨204, ""⟩⟩ =
      none :=
  ⟨rfl, rfl⟩

/-- Claim C6: whenever a response is received, `Push` succeeds exactly on a
status code in [200, 300), and on any other code it fails carrying both the
code and the full response body. -/
theorem claim_C6_status_interpretation :
    ∀ (rcv : lokiJsonV1Exchanger) (env : PushEnv) (resp : httpResponse),
      env.buildResult = .ok () → env.transportResult = .ok resp →
      (Push rcv env = none ↔
        200 ≤ resp.statusCode ∧ resp.statusCode < 300) ∧
      (¬(200 ≤ resp.statusCode ∧ resp.statusCode < 300) →
        Push rcv env = some (.unexpectedStatus resp.statusCode resp.body)) := by
  intro rcv env resp hb ht
  simp only [Push, hb, ht]
  by_cases h : isSuccessHTTPCode resp.statusCode = true
  · have hrange : 200 ≤ resp.statusCode ∧ resp.statusCode < 300 := by
      rw [isSuccessHTTPCode, Bool.and_eq_true, decide_eq_true_iff,
        decide_eq_true_iff] at h
      omega
    rw [if_pos h]
    exact ⟨⟨fun _ => hrange, fun _ => rfl⟩, fun hc => absurd hrange hc⟩
  · have hrange : ¬(200 ≤ resp.statusCode ∧ resp.statusCode < 300) := by
      rw [isSuccessHTTPCode, Bool.and_eq_true, decide_eq_true_iff,
        decide_eq_true_iff] at h
      omega
    rw [if_neg h]
    refine ⟨⟨fun hc => absurd hc (by simp), fun hc => absurd hc hrange⟩,
      fun _ => rfl⟩

/-- Witness for C6: a mock 500 response with body `"internal error"` makes
`Push` fail with exactly that code and body. -/
theorem claim_C6_status_interpretation_witness :
    Push ⟨false, "http://loki", "", ""⟩
        ⟨.ok (), .ok (), .ok ⟨500, "internal error"⟩⟩ =
      some (.unexpectedStatus 500 "internal error") :=
  (claim_C6_status_interpretation ⟨false, "http://loki", "", ""⟩
      ⟨.ok (), .ok (), .ok ⟨500, "internal error"⟩⟩
      ⟨500, "internal error"⟩ rfl rfl).2 (by decide)

/-- Claim C7: whenever a response is received, `Ping` returns a non-error
result whose `IsReady` flag is true exactly on a status code in [200, 300);
a non-2xx readiness response yields `(PongResponse{IsReady:false}, nil)`, not
an error. -/
theorem claim_C7_ping_ready_iff_2xx :
    ∀ (rcv : lokiJsonV1Exchanger) (env : PingEnv) (resp : httpResponse),
      env.buildResult = .ok () → env.transportResult = .ok resp →
      Ping rcv env = (some ⟨isSuccessHTTPCode resp.statusCode⟩, none) ∧
      (isSuccessHTTPCode resp.statusCode = true ↔
        200 ≤ resp.statusCode ∧ resp.statusCode < 300) := by
  intro rcv env resp hb ht
  constructor
  · simp only [Ping, hb, ht]
  · rw [isSuccessHTTPCode, Bool.and_eq_true, decide_eq_true_iff,
      decide_eq_true_iff]
    omega

/-- Witness for C7: a mock 503 readiness response gives
`(PongResponse{IsReady:false}, nil)`. -/
theorem claim_C7_ping_ready_iff_2xx_witness :
    Ping ⟨false, "http://loki", "", ""⟩ ⟨.ok (), .ok ⟨503, ""⟩⟩ =
      (some ⟨false⟩, none) := by
  have h := (claim_C7_ping_ready_iff_2xx ⟨false, "http://loki", "", ""⟩
    ⟨.ok (), .ok ⟨503, ""⟩⟩ ⟨503, ""⟩ rfl rfl).1
  rw [h]
  decide

/-- Claim C8: the push request carries basic-auth credentials exactly when
both stored fields are non-empty, and `SetBasicAuth` overwrites both stored
fields unconditionally, with no validation. -/
theorem claim_C8_basic_auth :
    ∀ (rcv : lokiJsonV1Exchanger) (u p u0 p0 : String),
      ((buildPushRequest rcv).basicAuth =
        if rcv.username ≠ "" ∧ rcv.password ≠ "" then
          some (rcv.username, rcv.password)
        else none) ∧
      ((buildPushRequest rcv).basicAuth.isSome ↔
        rcv.username ≠ "" ∧ rcv.password ≠ "") ∧
      SetBasicAuth (SetBasicAuth rcv u0 p0) u p = SetBasicAuth rcv u p ∧
      (SetBasicAuth rcv u p).username = u ∧
      (SetBasicAuth rcv u p).password = p := by
  intro rcv u p u0 p0
  refine ⟨rfl, ?_, rfl, rfl, rfl⟩
  rw [buildPushRequest]
  by_cases h : rcv.username ≠ "" ∧ rcv.password ≠ ""
  · simp [h]
  · simp only [if_neg h, Option.isSome_none, Bool.false_eq_true, false_iff]
    exact h

/-- Claim C9: `copyAndMergeLabels` is the left-to-right union of its sources —
under the Go-map invariant (distinct keys within each source), looking up any
key in the merged map returns the value from the last source containing that
key. -/
theorem claim_C9_merge_last_write_wins :
    ∀ (srcs : List LabelMap) (k : String),
      (∀ src ∈ srcs, (src.map Prod.fst).Nodup) →
      copyAndMergeLabels srcs k = lastSourceWins srcs k := by
  intro srcs
  induction srcs using List.reverseRecOn with
  | nil => intro k _; rfl
  | append_singleton srcs src ih =>
    intro k h
    have hsrc : (src.map Prod.fst).Nodup := h src (by simp)
    have hrest : ∀ s ∈ srcs, (s.map Prod.fst).Nodup :=
      fun s hs => h s (by simp [hs])
    rw [copyAndMergeLabels, List.foldl_append, List.foldl_cons, List.foldl_nil]
    rw [foldl_mapWrite_get src _ k hsrc]
    rw [lastSourceWins, List.reverse_append]
    simp only [List.reverse_singleton, List.singleton_append,
      List.findSome?_cons]
    cases hv : mapGet src k with
    | some v => rfl
    | none => exact ih k hrest

/-- Witness for C9: merging `[a=1, b=2]` then `[a=3]` looks up `a` to the
later source's value `3`. -/
theorem claim_C9_merge_last_write_wins_witness :
    copyAndMergeLabels [[("a", "1"), ("b", "2")], [("a", "3")]] "a" =
      lastSourceWins [[("a", "1"), ("b", "2")], [("a", "3")]] "a" ∧
    copyAndMergeLabels [[("a", "1"), ("b", "2")], [("a", "3")]] "a" =
      some "3" :=
  ⟨claim_C9_merge_last_write_wins [[("a", "1"), ("b", "2")], [("a", "3")]] "a"
      (by decide),
   by decide⟩

/-- Claim C10: every `Ping` run returns exactly one of a response or an
error — never both, never neither. -/
theorem claim_C10_ping_exactly_one :
    ∀ (rcv : lokiJsonV1Exchanger) (env : PingEnv),
      ((Ping rcv env).1 = none ∧ (Ping rcv env).2.isSome) ∨
      ((Ping rcv env).1.isSome ∧ (Ping rcv env).2 = none) := by
  intro rcv env
  rcases env with ⟨hb, ht⟩
  cases hb with
  | error e => left; exact ⟨rfl, rfl⟩
  | ok u =>
    cases ht with
    | error e => left; exact ⟨rfl, rfl⟩
    | ok resp => right; exact ⟨rfl, rfl⟩

end Promtail
